import Mathlib

/-!
Shallow embedding of the FirmOctopus firmware-recon tool
(`src/octopus_en.py`, the richer English variant, which every claim cites).

Modelling conventions:
* The filesystem tree seen by `os.walk` is a list of directories
  (`FSDir`), each holding a directory path string and the regular files
  directly inside it.  A file carries its name, its text content as a
  list of lines (the decode-errors-ignored view used by `read_text` /
  `open(errors='ignore')`), its raw bytes (used by `read_bytes` and
  `is_binary_file`), and whether any execute-permission bit is set
  (`st_mode & 0o111`).
* Python string/bytes helpers (`lower`, `Path.suffix`,
  `os.path.basename`, `bytes.lower`, UTF-8 encoding) are re-implemented
  over `List Char` / `List Nat`; case mapping follows the ASCII range,
  which covers every constant string the tool uses.
* External subprocesses (`strings usr/lib/libWebs.so`) are modelled by
  passing their observable output as an `Option String` input: `none`
  models an absent library file (or a failed probe), `some text` the
  printable-strings dump.
* Exceptions never arise in the pure model; the Python
  `try/except: continue` blocks therefore have no residue here.
-/

/-- Python `str.lower` (ASCII case mapping, which covers all data the tool compares). -/
def strLower (s : String) : String := ⟨s.data.map Char.toLower⟩

/-- Index of the last '.' in a character list, if any. -/
def rfindDot : List Char → Option Nat
  | [] => none
  | c :: cs =>
    match rfindDot cs with
    | some i => some (i + 1)
    | none => if c = '.' then some 0 else none

/-- Python `pathlib.PurePath.suffix` of a final path component: the part of the
name from its last dot, except when the dot is the first or the last character. -/
def pathSuffix (name : String) : String :=
  match rfindDot name.data with
  | some i => if 0 < i ∧ i + 1 < name.data.length then ⟨name.data.drop i⟩ else ""
  | none => ""

/-- Python `os.path.basename`: the part of a path after the last '/'. -/
def basename (p : String) : String :=
  ⟨p.data.foldl (fun acc c => if c = '/' then [] else acc ++ [c]) []⟩

/-- Decide whether `pat` occurs at the head of the second list
(helper for contiguous-segment containment, Python's `in` on sequences). -/
def startsWithSeg [DecidableEq α] : List α → List α → Bool
  | [], _ => true
  | _ :: _, [] => false
  | a :: as, b :: bs => if a = b then startsWithSeg as bs else false

/-- Python `pat in s` on sequences: `pat` occurs as a contiguous segment. -/
def containsSeg [DecidableEq α] (pat : List α) : List α → Bool
  | [] => startsWithSeg pat []
  | b :: bs => startsWithSeg pat (b :: bs) || containsSeg pat bs

/-- octopus_en.py line 87: `SCRIPT_NAME = Path(__file__).name.lower()`. -/
def SCRIPT_NAME : String := "octopus_en.py"

/-- octopus_en.py line 64. -/
def EXCLUDED_SUFFIXES : List String := [".id0", ".id1", ".nam"]

/-- octopus_en.py line 48. -/
def DEFAULT_CONFIG_KEYWORDS : List String := ["admin", "root:", "passwd"]

/-- octopus_en.py lines 52-61: label ↦ (pattern, mode); mode 0 = grep content, 1 = filename match. -/
def CUSTOM_PATTERNS : List (String × String × Nat) :=
  [("Lua", (".lua", 1)), ("Asp", (".asp", 1)), ("Static HTML", (".htm", 1)),
   ("PHP", (".php", 1)), ("CGI", (".cgi", 1)), ("nginx", ("nginx", 1)),
   ("Goahead", ("goahead", 0)), ("lighttpd", ("lighttpd", 0))]

/-- octopus_en.py line 67. -/
def MAX_WIDTH : Nat := 100

/-- ANSI reset sequence, octopus_en.py line 36. -/
def RESET : String := "\x1b[0m"

/-- ANSI bright red, `COLORS['red']`, octopus_en.py line 43. -/
def RED : String := "\x1b[91m"

/-- octopus_en.py lines 90-91: cut a long line at `MAX_WIDTH`, ellipsis suffix. -/
def truncate (text : String) : String :=
  if text.data.length ≤ MAX_WIDTH then text else ⟨text.data.take (MAX_WIDTH - 3)⟩ ++ "..."

/-- A regular file as the walk sees it: name, decoded text lines, raw bytes,
and whether `st_mode & 0o111` is nonzero. -/
structure FSFile where
  name : String
  lines : List String
  bytes : List Nat
  executable : Bool
deriving DecidableEq

/-- One directory visited by `os.walk`: its path and the files directly inside. -/
structure FSDir where
  path : String
  files : List FSFile
deriving DecidableEq

/-- The whole walk, in visit order. A nonexistent or non-directory root walks as `[]`. -/
abbrev FSTree := List FSDir

/-- Python `str(Path(dirpath) / name)`. -/
def filePath (dirpath : String) (f : FSFile) : String := dirpath ++ "/" ++ f.name

/-- All (dirpath, file) pairs of the walk, in visit order: exactly what the
nested `for dirpath ... for name in filenames` loops enumerate. -/
def filesOfTree (tree : FSTree) : List (String × FSFile) :=
  tree.flatMap (fun d => d.files.map (fun f => (d.path, f)))

/-- The `ext = path.suffix.lower()` computed for each entry. -/
def extLower (f : FSFile) : String := strLower (pathSuffix f.name)

/-- Path filter shared by the walks (lines 109, 127, 141, 192):
skip the tool's own file and the excluded index/metadata suffixes. -/
def eligible (f : FSFile) : Bool :=
  !(strLower f.name == SCRIPT_NAME || EXCLUDED_SUFFIXES.contains (extLower f))

/-- octopus_en.py lines 94-99: a NUL byte in the first 1024 bytes. -/
def is_binary_file (f : FSFile) : Bool := (f.bytes.take 1024).contains 0

/-- Python `path.read_text(errors='ignore')`: the decoded text, lines joined. -/
def readText (f : FSFile) : String := String.intercalate "\n" f.lines

/-- octopus_en.py line 113: `lower_name == e.lower() or ext == e.lower()`. -/
def matchesPattern (f : FSFile) (e : String) : Bool :=
  strLower f.name == strLower e || extLower f == strLower e

/-- One label's bucket of `find_files` (lines 102-116).  The source loops over
files then labels; appends to distinct labels are independent, so collecting
one label's matches over the walk preserves its append order exactly. -/
def classifyLabel (tree : FSTree) (exts : List String) : List String :=
  (filesOfTree tree).filterMap (fun df =>
    if eligible df.2 && exts.any (matchesPattern df.2) then some (filePath df.1 df.2) else none)

/-- octopus_en.py lines 102-116. -/
def find_files (tree : FSTree) (patterns : List (String × List String)) :
    List (String × List String) :=
  patterns.map (fun lp => (lp.1, classifyLabel tree lp.2))

/-- octopus_en.py lines 119-130: files directly inside directories whose
basename is exactly `init.d`.  The source guards the whole per-directory file
loop with the basename test; over the walk's (dirpath, file) pairs that is a
conjunction of the directory test and the per-file filter. -/
def find_init_scripts (tree : FSTree) : List String :=
  (filesOfTree tree).filterMap (fun df =>
    if basename df.1 == "init.d" && eligible df.2 then some (filePath df.1 df.2) else none)

/-- octopus_en.py line 135. -/
def httpdApiKeywords : List String := ["cgiMain", "httpd_init", "websFormDefine", "handle_request"]

/-- Criterion (a) of line 144: name contains `httpd`, any exec bit, judged binary. -/
def httpdNameExecBinary (f : FSFile) : Bool :=
  containsSeg "httpd".data (strLower f.name).data && f.executable && is_binary_file f

/-- Criterion (b) of lines 147-151: the decoded text contains one of the API markers. -/
def httpdApiReference (f : FSFile) : Bool :=
  httpdApiKeywords.any (fun k => containsSeg k.data (readText f).data)

/-- The if/else of lines 144-151 deciding whether an entry joins the service set. -/
def httpdCond (f : FSFile) : Bool :=
  if httpdNameExecBinary f then true else httpdApiReference f

/-- octopus_en.py lines 133-154: `services` is a Python set, modelled as a
first-occurrence-deduplicated list. -/
def find_httpd_services (tree : FSTree) : List String :=
  ((filesOfTree tree).filterMap (fun df =>
    if eligible df.2 && httpdCond df.2 then some (filePath df.1 df.2) else none)).dedup

/-- Characters excluded by the negative lookarounds of the keyword regex (line 160). -/
def lookExcluded : List Char := ['<', '>', '-']

/-- Python regex `\w` on the ASCII range (all tool data is ASCII). -/
def isWordChar (c : Char) : Bool := c.isAlphanum || c == '_'

/-- Whether position `i` of the line holds a word character (out of range counts as no). -/
def wordAt (s : List Char) (i : Nat) : Bool :=
  match s[i]? with
  | some c => isWordChar c
  | none => false

/-- Negative lookahead `(?![<>-])` at position `i` (end of line passes). -/
def lookOkAt (s : List Char) (i : Nat) : Bool :=
  match s[i]? with
  | some c => !lookExcluded.contains c
  | none => true

/-- Regex `\b` between positions `i - 1` and `i`: word-ness changes. -/
def boundaryAt (s : List Char) (i : Nat) : Bool :=
  (match i with
   | 0 => false
   | j + 1 => wordAt s j) != wordAt s i

/-- Negative lookbehind `(?<![<>-])` at position `i` (start of line passes). -/
def lookbehindOkAt (s : List Char) (i : Nat) : Bool :=
  match i with
  | 0 => true
  | j + 1 => lookOkAt s j

/-- Case-insensitive literal match of keyword `k` (already lowercased) at position `i`. -/
def matchCore (s : List Char) (i : Nat) (k : List Char) : Bool :=
  ((s.drop i).take k.length).map Char.toLower == k

/-- Full match of one alternative of the compiled pattern of line 160 at position `i`:
literal keyword plus both `\b` anchors and both negative lookarounds. -/
def matchKwAt (s : List Char) (k : List Char) (i : Nat) : Bool :=
  matchCore s i k && lookbehindOkAt s i && boundaryAt s i &&
    boundaryAt s (i + k.length) && lookOkAt s (i + k.length)

/-- Python `pattern.search(line)`: some position matches some keyword (leftmost
alternation order is irrelevant to the boolean). -/
def searchLine (kws : List (List Char)) (s : List Char) : Bool :=
  (List.range (s.length + 1)).any (fun i => kws.any (fun k => matchKwAt s k i))

/-- Python `pattern.sub` with the highlight replacement (line 176): scan left to
right, wrap each non-overlapping match in RED/RESET, keep other characters.
Fuel is the remaining length, which the scan never exceeds. -/
def subHighlightAux (kws : List (List Char)) (s : List Char) : Nat → Nat → List Char
  | i, 0 => s.drop i
  | i, fuel + 1 =>
    if i < s.length then
      match kws.find? (fun k => matchKwAt s k i) with
      | some k =>
          RED.data ++ (s.drop i).take k.length ++ RESET.data ++
            subHighlightAux kws s (i + k.length) fuel
      | none => (s.drop i).take 1 ++ subHighlightAux kws s (i + 1) fuel
    else []

/-- String wrapper of the highlight substitution. -/
def subHighlight (kws : List (List Char)) (s : String) : String :=
  ⟨subHighlightAux kws s.data 0 (s.data.length + 1)⟩

/-- Python `str.strip()`: whitespace removed from both ends. -/
def stripStr (s : String) : String :=
  ⟨((s.data.dropWhile Char.isWhitespace).reverse.dropWhile Char.isWhitespace).reverse⟩

/-- octopus_en.py line 161: the wider static-asset exclusion set of the keyword scan. -/
def KEYWORD_EXCLUDED_EXTS : List String :=
  [".js", ".shtml", ".html", ".xml", ".asp", ".htm", ".aspx"]

/-- Path filter of the keyword scan (line 168): self, static assets, excluded suffixes. -/
def keywordEligible (f : FSFile) : Bool :=
  !(strLower f.name == SCRIPT_NAME || KEYWORD_EXCLUDED_EXTS.contains (extLower f) ||
    EXCLUDED_SUFFIXES.contains (extLower f))

/-- Python `enumerate(_, n)`. -/
def enumFromN {α : Type} : Nat → List α → List (Nat × α)
  | _, [] => []
  | n, a :: as => (n, a) :: enumFromN (n + 1) as

/-- Per-file loop of lines 173-177: 1-based line numbers; a hit per matching line,
snippet stripped, truncated, then keyword-highlighted. -/
def fileKeywordHits (kws : List (List Char)) (path : String) (lines : List String) :
    List (String × Nat × String) :=
  (enumFromN 1 lines).filterMap (fun nl =>
    if searchLine kws nl.2.data then
      some (path, nl.1, subHighlight kws (truncate (stripStr nl.2)))
    else none)

/-- octopus_en.py lines 157-180.  The caller's `keywords=None` default passes
`DEFAULT_CONFIG_KEYWORDS`; keywords are lowercased once since the compiled
pattern is case-insensitive. -/
def detect_user_keywords (tree : FSTree) (keywords : List String) :
    List (String × Nat × String) :=
  (filesOfTree tree).flatMap (fun df =>
    if keywordEligible df.2 && !is_binary_file df.2 then
      fileKeywordHits (keywords.map (fun k => (strLower k).data)) (filePath df.1 df.2) df.2.lines
    else [])

/-- Python `bytes.lower()`: ASCII uppercase bytes mapped down, others unchanged. -/
def bytesLower (bs : List Nat) : List Nat :=
  bs.map (fun b => if 65 ≤ b ∧ b ≤ 90 then b + 32 else b)

/-- UTF-8 encoding of one code point. -/
def utf8Bytes (c : Char) : List Nat :=
  let n := c.toNat
  if n < 128 then [n]
  else if n < 2048 then [192 + n / 64, 128 + n % 64]
  else if n < 65536 then [224 + n / 4096, 128 + n / 64 % 64, 128 + n % 64]
  else [240 + n / 262144, 128 + n / 4096 % 64, 128 + n / 64 % 64, 128 + n % 64]

/-- Python `str.encode('utf-8')`. -/
def encodeUtf8 (s : String) : List Nat := s.data.flatMap utf8Bytes

/-- Rule check of lines 195-201: mode 1 is a case-insensitive filename-substring
test, mode 0 a case-insensitive byte-substring test on the raw content. -/
def entrySatisfies (pat : String) (mode : Nat) (f : FSFile) : Bool :=
  if mode = 1 then containsSeg (strLower pat).data (strLower f.name).data
  else if mode = 0 then containsSeg (bytesLower (encodeUtf8 pat)) (bytesLower f.bytes)
  else false

/-- Existence of an eligible matching entry.  The source's per-label walk with
its two `break`s (lines 187-207) computes exactly this existence test. -/
def ruleFound (tree : FSTree) (pat : String) (mode : Nat) : Bool :=
  (filesOfTree tree).any (fun df => eligible df.2 && entrySatisfies pat mode df.2)

/-- octopus_en.py lines 183-208: the labels whose rule some eligible entry
satisfies, in rule-table order. -/
def detect_custom_patterns (tree : FSTree) (patterns : List (String × String × Nat)) :
    List String :=
  patterns.filterMap (fun lpm => if ruleFound tree lpm.2.1 lpm.2.2 then some lpm.1 else none)

/-- Python `\s` (ASCII whitespace range). -/
def isSpaceChar (c : Char) : Bool := [' ', '\t', '\n', '\r', '\x0b', '\x0c'].contains c

/-- Match a literal at the head of a list, returning the remainder. -/
def dropLit [DecidableEq α] : List α → List α → Option (List α)
  | [], s => some s
  | _ :: _, [] => none
  | a :: as, b :: bs => if a = b then dropLit as bs else none

/-- First marker token of the version regex of line 218. -/
def serverAddrChars : List Char := "SERVER_ADDR".data

/-- Second marker token of the version regex of line 218. -/
def serverSoftwareChars : List Char := "SERVER_SOFTWARE".data

/-- Greedy `p+`: the maximal nonempty run of `p`-characters and the rest. -/
def parseChunk (p : Char → Bool) (s : List Char) : Option (List Char × List Char) :=
  if s.takeWhile p = [] then none else some (s.takeWhile p, s.dropWhile p)

/-- Literal `\.` of the version regex. -/
def expectDot (s : List Char) : Option (List Char) :=
  match s with
  | c :: r => if c = '.' then some r else none
  | [] => none

/-- Match `SERVER_ADDR\s+(\d+\.\d+\.\d+)\s+SERVER_SOFTWARE` anchored at the
head of `s`, returning group 1.  Maximal munch is equivalent to the regex
here because each `\s+`/`\d+` run is followed by a literal outside its own
character class, so backtracking can never succeed where greed fails. -/
def goaheadMatchAt (s : List Char) : Option String :=
  (dropLit serverAddrChars s).bind fun r1 =>
  (parseChunk isSpaceChar r1).bind fun w1r =>
  (parseChunk Char.isDigit w1r.2).bind fun d1r =>
  (expectDot d1r.2).bind fun r4 =>
  (parseChunk Char.isDigit r4).bind fun d2r =>
  (expectDot d2r.2).bind fun r6 =>
  (parseChunk Char.isDigit r6).bind fun d3r =>
  (parseChunk isSpaceChar d3r.2).bind fun w2r =>
  (dropLit serverSoftwareChars w2r.2).map fun _ =>
    ⟨d1r.1 ++ '.' :: d2r.1 ++ '.' :: d3r.1⟩

/-- Python `re.search`: leftmost position where the anchored match succeeds. -/
def goaheadSearch : List Char → Option String
  | [] => none
  | c :: rest =>
    match goaheadMatchAt (c :: rest) with
    | some v => some v
    | none => goaheadSearch rest

/-- octopus_en.py lines 211-223.  The input models the external collaborators:
`none` when `usr/lib/libWebs.so` is not a file (or the `strings` call fails),
`some text` the printable-strings dump of the library. -/
def extract_goahead_version (libWebsStrings : Option String) : Option String :=
  match libWebsStrings with
  | none => none
  | some text => goaheadSearch text.data

/-- Rule table literal of main, octopus_en.py lines 265-268. -/
def mainPatterns : List (String × List String) :=
  [("Web Files", [".php", ".asp", ".htm", ".html", ".py", ".jsp", ".cgi", ".lua"]),
   ("Common Sensitive Files", ["passwd", "shadow", ".passwd", ".shadow", "httpd.conf", ".env"])]

/-- Observable outcome of one run of `main` (lines 258-318), reporting aside.
`goahead_probe_calls` counts invocations of `extract_goahead_version`, the
collaborator call counter the deepening-gating property asks about. -/
structure MainResult where
  results : List (String × List String)
  init_scripts : List String
  httpd_services : List String
  user_hits : List (String × Nat × String)
  custom_hits : List String
  goahead_version : Option String
  goahead_probe_calls : Nat
deriving DecidableEq

/-- octopus_en.py lines 258-291 and 283-285: the five scans, then the probe
guarded by `'Goahead' in custom_hits`.  Named `main'` because Lean reserves
the bare name `main` for executable entry points. -/
def main' (tree : FSTree) (libWebsStrings : Option String) : MainResult :=
  let results := find_files tree mainPatterns
  let init_scripts := find_init_scripts tree
  let httpd_services := find_httpd_services tree
  let user_hits := detect_user_keywords tree DEFAULT_CONFIG_KEYWORDS
  let custom_hits := detect_custom_patterns tree CUSTOM_PATTERNS
  if "Goahead" ∈ custom_hits then
    ⟨results, init_scripts, httpd_services, user_hits, custom_hits,
      extract_goahead_version libWebsStrings, 1⟩
  else
    ⟨results, init_scripts, httpd_services, user_hits, custom_hits, none, 0⟩

/-- The same tree with the tool's own file deleted everywhere. -/
def removeScript (tree : FSTree) : FSTree :=
  tree.map (fun d => ⟨d.path, d.files.filter (fun f => !(strLower f.name == SCRIPT_NAME))⟩)

/-! Helper lemmas about the walk and the path filter. -/

/-- Entries of the walk are the files of the tree's directories, paired with the
directory's path. -/
lemma mem_filesOfTree {tree : FSTree} {dp : String} {f : FSFile} :
    (dp, f) ∈ filesOfTree tree ↔ ∃ d ∈ tree, d.path = dp ∧ f ∈ d.files := by
  simp only [filesOfTree, List.mem_flatMap, List.mem_map, Prod.mk.injEq]
  constructor
  · rintro ⟨d, hd, g, hg, hdp, rfl⟩
    exact ⟨d, hd, hdp, hg⟩
  · rintro ⟨d, hd, hdp, hf⟩
    exact ⟨d, hd, f, hf, hdp, rfl⟩

lemma filterMap_filter_of_none {α β : Type} (p : α → Bool) (g : α → Option β)
    (h : ∀ a, p a = false → g a = none) (l : List α) :
    (l.filter p).filterMap g = l.filterMap g := by
  induction l with
  | nil => rfl
  | cons a as ih =>
    by_cases hp : p a = true
    · simp [List.filter_cons, hp, List.filterMap_cons, ih]
    · have hf : p a = false := by simpa using hp
      simp [List.filter_cons, hf, List.filterMap_cons, h a hf, ih]

lemma any_filter_of_false {α : Type} (p q : α → Bool)
    (h : ∀ a, p a = false → q a = false) (l : List α) :
    (l.filter p).any q = l.any q := by
  induction l with
  | nil => rfl
  | cons a as ih =>
    by_cases hp : p a = true
    · simp [List.filter_cons, hp, List.any_cons, ih]
    · have hf : p a = false := by simpa using hp
      simp [List.filter_cons, hf, List.any_cons, h a hf, ih]

lemma flatMap_filter_of_nil {α β : Type} (p : α → Bool) (g : α → List β)
    (h : ∀ a, p a = false → g a = []) (l : List α) :
    (l.filter p).flatMap g = l.flatMap g := by
  induction l with
  | nil => rfl
  | cons a as ih =>
    by_cases hp : p a = true
    · simp [List.filter_cons, hp, List.flatMap_cons, ih]
    · have hf : p a = false := by simpa using hp
      simp [List.filter_cons, hf, List.flatMap_cons, h a hf, ih]

/-- Predicate singling out the entries that are not the tool's own file. -/
def notScript (df : String × FSFile) : Bool := !(strLower df.2.name == SCRIPT_NAME)

/-- Removing the tool's own file from every directory filters the walk's entries. -/
lemma filesOfTree_removeScript (tree : FSTree) :
    filesOfTree (removeScript tree) = (filesOfTree tree).filter notScript := by
  induction tree with
  | nil => rfl
  | cons d rest ih =>
    simp only [removeScript, List.map_cons, filesOfTree, List.flatMap_cons, ih,
      List.filter_append]
    congr 1
    induction d.files with
    | nil => rfl
    | cons f fs ihf =>
      by_cases hf : (!(strLower f.name == SCRIPT_NAME)) = true
      · simp [List.filter_cons, hf, notScript, ihf]
      · have hff : (!(strLower f.name == SCRIPT_NAME)) = false := by simpa using hf
        simp [List.filter_cons, hff, notScript, ihf]

/-- A script-named entry fails the shared path filter. -/
lemma eligible_eq_false_of_script {f : FSFile} (h : notScript ("", f) = false) :
    eligible f = false := by
  simp only [notScript, Bool.not_eq_false'] at h
  simp [eligible, h]

/-- A script-named entry fails the keyword scan's path filter. -/
lemma keywordEligible_eq_false_of_script {f : FSFile} (h : notScript ("", f) = false) :
    keywordEligible f = false := by
  simp only [notScript, Bool.not_eq_false'] at h
  simp [keywordEligible, h]

/-! Claim theorems. -/

/-- C4: against an eligible non-binary file, the default keyword scan reports
no hit for a line holding `admin` only inside `adminXYZ` (word boundary), no
hit for a line holding `-admin-` (lookaround exclusion), and for a line
holding ` admin ` exactly one hit whose snippet wraps `admin` in the
highlight escape sequences. -/
theorem detect_user_keywords_boundary_law :
    detect_user_keywords
      [⟨"etc", [⟨"config.txt",
        ["see adminXYZ here", "flag -admin- set", "an admin here"], [], false⟩]⟩]
      DEFAULT_CONFIG_KEYWORDS =
      [("etc/config.txt", 3, "an \x1b[91madmin\x1b[0m here")] := by decide

/-- C10: with the default keywords, `root:` followed by a non-word character or
end of line yields no hit (the trailing word boundary after the non-word `:`
needs a following word character), while `root:` followed by a word character
yields a hit with the match highlighted. -/
theorem detect_user_keywords_root_colon_boundary :
    detect_user_keywords
      [⟨"etc", [⟨"creds.txt",
        ["login root: enabled", "ends with root:", "root:x:0:0"], [], false⟩]⟩]
      DEFAULT_CONFIG_KEYWORDS =
      [("etc/creds.txt", 3, "\x1b[91mroot:\x1b[0mx:0:0")] := by decide

/-- C9: a nonexistent or non-directory root makes `os.walk` yield nothing, so
every scan returns its empty result instead of raising: `find_files` binds
every label of the rule table to an empty list, and the four other scans
return empty results. -/
theorem scans_empty_on_missing_root (pats : List (String × List String)) (kws : List String)
    (cpats : List (String × String × Nat)) :
    find_files [] pats = pats.map (fun lp => (lp.1, [])) ∧
    find_init_scripts [] = [] ∧
    find_httpd_services [] = [] ∧
    detect_user_keywords [] kws = [] ∧
    detect_custom_patterns [] cpats = [] := by
  refine ⟨?_, by simp [find_init_scripts, filesOfTree], by simp [find_httpd_services, filesOfTree],
    by simp [detect_user_keywords, filesOfTree], ?_⟩
  · simp [find_files, classifyLabel, filesOfTree]
  · exact List.filterMap_eq_nil_iff.mpr (by intro a _; simp [ruleFound, filesOfTree])

/-- C5: if no file matches the Goahead signature rule, so the label `Goahead`
is absent from the custom-pattern detection result, then `main` never invokes
the version-extraction probe (its collaborator call counter stays 0). -/
theorem main_goahead_probe_gating (tree : FSTree) (lib : Option String)
    (h : "Goahead" ∉ detect_custom_patterns tree CUSTOM_PATTERNS) :
    (main' tree lib).goahead_probe_calls = 0 := by
  simp [main', h]

/-- Witness for C5 at the empty tree. -/
theorem main_goahead_probe_gating_witness :
    ("Goahead" ∉ detect_custom_patterns ([] : FSTree) CUSTOM_PATTERNS) ∧
    (main' [] none).goahead_probe_calls = 0 :=
  ⟨by decide, main_goahead_probe_gating [] none (by decide)⟩

/-- C1 counterexample: a file named exactly `.php` is classified under
`Web Files`, yet its `Path.suffix`-extension is empty and matches none of the
label's patterns — `find_files` also matches a pattern against the full
lowercased filename, so extension equality does not hold for every
classified file. -/
theorem find_files_extension_only_cex :
    find_files [⟨"www", [⟨".php", [], [], false⟩]⟩] mainPatterns =
      [("Web Files", ["www/.php"]), ("Common Sensitive Files", [])] ∧
    extLower ⟨".php", [], [], false⟩ = "" ∧
    (([".php", ".asp", ".htm", ".html", ".py", ".jsp", ".cgi", ".lua"] : List String).all
      (fun e => !(extLower ⟨".php", [], [], false⟩ == strLower e))) = true := by decide

/-- C1 amended: every file that `find_files` places under a label passed the
path filter, and its extension or its full lowercased filename equals one of
the label's patterns, case-insensitively. -/
theorem find_files_classification_amended (tree : FSTree) (pats : List (String × List String))
    (label : String) (lst : List String) (h : (label, lst) ∈ find_files tree pats) :
    ∃ exts, (label, exts) ∈ pats ∧ ∀ p ∈ lst, ∃ dp f, (dp, f) ∈ filesOfTree tree ∧
      p = filePath dp f ∧ eligible f = true ∧ ∃ e ∈ exts,
        (strLower f.name = strLower e ∨ extLower f = strLower e) := by
  rw [find_files] at h
  rcases List.mem_map.mp h with ⟨lp, hlp, heq⟩
  have h1 : lp.1 = label := congrArg Prod.fst heq
  have h2 : classifyLabel tree lp.2 = lst := congrArg Prod.snd heq
  subst h1
  subst h2
  refine ⟨lp.2, by simpa using hlp, ?_⟩
  intro p hp
  rcases List.mem_filterMap.mp hp with ⟨df, hdf, hif⟩
  cases hb : (eligible df.2 && lp.2.any (matchesPattern df.2)) with
  | false => simp [classifyLabel, hb] at hif
  | true =>
    simp only [classifyLabel, hb, if_true] at hif
    have hpf : p = filePath df.1 df.2 := by
      cases hif
      rfl
    have hb' : eligible df.2 = true ∧ lp.2.any (matchesPattern df.2) = true := by simpa using hb
    rcases hb' with ⟨hel, hany⟩
    rcases List.any_eq_true.mp hany with ⟨e, he, hm⟩
    have hm' : strLower df.2.name == strLower e ∨ extLower df.2 == strLower e := by
      simpa [matchesPattern] using hm
    rcases hm' with hn | hx
    · exact ⟨df.1, df.2, hdf, hpf, hel, e, he, Or.inl (by simpa using hn)⟩
    · exact ⟨df.1, df.2, hdf, hpf, hel, e, he, Or.inr (by simpa using hx)⟩

/-- Witness for the amended C1 at a one-file tree. -/
theorem find_files_classification_amended_witness :
    ∃ exts, ("Web Files", exts) ∈ mainPatterns ∧ ∀ p ∈ ["www/index.php"], ∃ dp f,
      (dp, f) ∈ filesOfTree [⟨"www", [⟨"index.php", [], [], false⟩]⟩] ∧
      p = filePath dp f ∧ eligible f = true ∧ ∃ e ∈ exts,
        (strLower f.name = strLower e ∨ extLower f = strLower e) :=
  find_files_classification_amended [⟨"www", [⟨"index.php", [], [], false⟩]⟩] mainPatterns
    "Web Files" ["www/index.php"] (by decide)

/-- Labels returned by the signature detector come from the rule table. -/
lemma detect_custom_patterns_mem_fst (tree : FSTree) (pats : List (String × String × Nat))
    (label : String) (h : label ∈ detect_custom_patterns tree pats) :
    label ∈ pats.map Prod.fst := by
  rw [detect_custom_patterns] at h
  rcases List.mem_filterMap.mp h with ⟨lpm, hmem, hif⟩
  cases hb : ruleFound tree lpm.2.1 lpm.2.2 with
  | false => simp [hb] at hif
  | true =>
    simp only [hb, if_true] at hif
    obtain rfl : lpm.1 = label := by simpa using hif
    exact List.mem_map.mpr ⟨lpm, hmem, rfl⟩

/-- With distinct labels in the rule table, the detector's output has no duplicates. -/
lemma detect_custom_patterns_nodup (tree : FSTree) :
    ∀ pats : List (String × String × Nat), (pats.map Prod.fst).Nodup →
      (detect_custom_patterns tree pats).Nodup := by
  intro pats
  induction pats with
  | nil => intro _; simp [detect_custom_patterns]
  | cons lpm rest ih =>
    intro h
    rw [List.map_cons, List.nodup_cons] at h
    have hrest := ih h.2
    cases hb : ruleFound tree lpm.2.1 lpm.2.2 with
    | false =>
      have heq : detect_custom_patterns tree (lpm :: rest) = detect_custom_patterns tree rest := by
        rw [detect_custom_patterns, detect_custom_patterns, List.filterMap_cons]
        simp [hb]
      rw [heq]
      exact hrest
    | true =>
      have heq : detect_custom_patterns tree (lpm :: rest) =
          lpm.1 :: detect_custom_patterns tree rest := by
        rw [detect_custom_patterns, detect_custom_patterns, List.filterMap_cons]
        simp [hb]
      rw [heq, List.nodup_cons]
      exact ⟨fun hc => h.1 (detect_custom_patterns_mem_fst tree rest lpm.1 hc), hrest⟩

/-- C2: over any rule table with distinct labels, each label appears at most
once, and a label appears exactly when some eligible entry satisfies its rule;
in particular a tree with two files both satisfying the same NameContains rule
still yields the label once. -/
theorem detect_custom_patterns_once_iff (tree : FSTree) (pats : List (String × String × Nat))
    (hnd : (pats.map Prod.fst).Nodup) :
    (detect_custom_patterns tree pats).Nodup ∧
    (∀ label, label ∈ detect_custom_patterns tree pats ↔
      ∃ pm : String × Nat, (label, pm) ∈ pats ∧ ruleFound tree pm.1 pm.2 = true) ∧
    detect_custom_patterns
      [⟨"www", [⟨"a.lua", [], [], false⟩, ⟨"b.lua", [], [], false⟩]⟩]
      [("Lua", (".lua", 1))] = ["Lua"] := by
  refine ⟨detect_custom_patterns_nodup tree pats hnd, ?_, by decide⟩
  intro label
  rw [detect_custom_patterns, List.mem_filterMap]
  constructor
  · rintro ⟨lpm, hmem, hif⟩
    cases hb : ruleFound tree lpm.2.1 lpm.2.2 with
    | false => simp [hb] at hif
    | true =>
      simp only [hb, if_true] at hif
      obtain rfl : lpm.1 = label := by simpa using hif
      exact ⟨lpm.2, hmem, hb⟩
  · rintro ⟨pm, hmem, hr⟩
    exact ⟨(label, pm), hmem, by simp [hr]⟩

/-- Witness for C2 at the two-Lua-file tree with the full rule table. -/
theorem detect_custom_patterns_once_iff_witness :
    (detect_custom_patterns [⟨"www", [⟨"a.lua", [], [], false⟩, ⟨"b.lua", [], [], false⟩]⟩]
        CUSTOM_PATTERNS).Nodup ∧
    (∀ label, label ∈ detect_custom_patterns
        [⟨"www", [⟨"a.lua", [], [], false⟩, ⟨"b.lua", [], [], false⟩]⟩] CUSTOM_PATTERNS ↔
      ∃ pm : String × Nat, (label, pm) ∈ CUSTOM_PATTERNS ∧
        ruleFound [⟨"www", [⟨"a.lua", [], [], false⟩, ⟨"b.lua", [], [], false⟩]⟩]
          pm.1 pm.2 = true) ∧
    detect_custom_patterns
      [⟨"www", [⟨"a.lua", [], [], false⟩, ⟨"b.lua", [], [], false⟩]⟩]
      [("Lua", (".lua", 1))] = ["Lua"] :=
  detect_custom_patterns_once_iff _ CUSTOM_PATTERNS (by decide)

/-- The if/else of the service scan admits an entry exactly when one of the
two criteria holds. -/
lemma httpdCond_iff (f : FSFile) :
    httpdCond f = true ↔ httpdNameExecBinary f = true ∨ httpdApiReference f = true := by
  cases hb : httpdNameExecBinary f with
  | false => simp [httpdCond, hb]
  | true => simp [httpdCond, hb]

/-- C3: the service set is exactly the union of the two criteria over eligible
entries — name contains `httpd` and executable and binary, or text content
holds an API-reference substring — deduplicated by path. -/
theorem find_httpd_services_union (tree : FSTree) :
    (find_httpd_services tree).Nodup ∧
    ∀ p, p ∈ find_httpd_services tree ↔
      ∃ dp f, (dp, f) ∈ filesOfTree tree ∧ p = filePath dp f ∧ eligible f = true ∧
        (httpdNameExecBinary f = true ∨ httpdApiReference f = true) := by
  refine ⟨List.nodup_dedup _, ?_⟩
  intro p
  rw [find_httpd_services, List.mem_dedup, List.mem_filterMap]
  constructor
  · rintro ⟨df, hdf, hif⟩
    cases hb : (eligible df.2 && httpdCond df.2) with
    | false => simp [hb] at hif
    | true =>
      simp only [hb, if_true] at hif
      obtain rfl : filePath df.1 df.2 = p := by simpa using hif
      have hb' : eligible df.2 = true ∧ httpdCond df.2 = true := by simpa using hb
      exact ⟨df.1, df.2, hdf, rfl, hb'.1, (httpdCond_iff df.2).mp hb'.2⟩
  · rintro ⟨dp, f, hdf, rfl, hel, hor⟩
    exact ⟨(dp, f), hdf, by simp [hel, (httpdCond_iff f).mpr hor]⟩

/-- C7: `find_init_scripts` returns exactly the eligible files directly inside
directories whose basename is the case-sensitive string `init.d`; directories
named `Init.d` or `INIT.D` and subdirectories of an init.d directory
contribute nothing unless themselves named `init.d`. -/
theorem find_init_scripts_exactly (tree : FSTree) :
    (∀ p, p ∈ find_init_scripts tree ↔
      ∃ dp f, (dp, f) ∈ filesOfTree tree ∧ basename dp = "init.d" ∧ eligible f = true ∧
        p = filePath dp f) ∧
    find_init_scripts
      [⟨"etc/Init.d", [⟨"a", [], [], false⟩]⟩, ⟨"etc/INIT.D", [⟨"b", [], [], false⟩]⟩,
       ⟨"etc/init.d/sub", [⟨"c", [], [], false⟩]⟩, ⟨"etc/init.d", [⟨"S50httpd", [], [], false⟩]⟩,
       ⟨"etc/init.d/sub2/init.d", [⟨"rc", [], [], false⟩]⟩] =
      ["etc/init.d/S50httpd", "etc/init.d/sub2/init.d/rc"] := by
  refine ⟨?_, by decide⟩
  intro p
  rw [find_init_scripts, List.mem_filterMap]
  constructor
  · rintro ⟨df, hdf, hif⟩
    cases hb : (basename df.1 == "init.d" && eligible df.2) with
    | false => simp [hb] at hif
    | true =>
      simp only [hb, if_true] at hif
      obtain rfl : filePath df.1 df.2 = p := by simpa using hif
      have hb' : basename df.1 = "init.d" ∧ eligible df.2 = true := by simpa using hb
      exact ⟨df.1, df.2, hdf, hb'.1, hb'.2, rfl⟩
  · rintro ⟨dp, f, hdf, hbn, hel, rfl⟩
    exact ⟨(dp, f), hdf, by simp [hbn, hel]⟩

/-- Classification ignores the tool's own file. -/
lemma classifyLabel_removeScript (tree : FSTree) (exts : List String) :
    classifyLabel (removeScript tree) exts = classifyLabel tree exts := by
  rw [classifyLabel, classifyLabel, filesOfTree_removeScript]
  refine filterMap_filter_of_none _ _ ?_ _
  intro df hdf
  simp [eligible_eq_false_of_script (f := df.2) hdf]

/-- `find_files` ignores the tool's own file for every rule table. -/
lemma find_files_removeScript (tree : FSTree) (pats : List (String × List String)) :
    find_files (removeScript tree) pats = find_files tree pats := by
  simp [find_files, classifyLabel_removeScript]

/-- The init.d scan ignores the tool's own file. -/
lemma find_init_scripts_removeScript (tree : FSTree) :
    find_init_scripts (removeScript tree) = find_init_scripts tree := by
  rw [find_init_scripts, find_init_scripts, filesOfTree_removeScript]
  refine filterMap_filter_of_none _ _ ?_ _
  intro df hdf
  simp [eligible_eq_false_of_script (f := df.2) hdf]

/-- The service scan ignores the tool's own file. -/
lemma find_httpd_services_removeScript (tree : FSTree) :
    find_httpd_services (removeScript tree) = find_httpd_services tree := by
  rw [find_httpd_services, find_httpd_services, filesOfTree_removeScript]
  exact congrArg List.dedup (filterMap_filter_of_none _ _
    (fun df hdf => by simp [eligible_eq_false_of_script (f := df.2) hdf]) _)

/-- The keyword scan ignores the tool's own file for every keyword list. -/
lemma detect_user_keywords_removeScript (tree : FSTree) (kws : List String) :
    detect_user_keywords (removeScript tree) kws = detect_user_keywords tree kws := by
  rw [detect_user_keywords, detect_user_keywords, filesOfTree_removeScript]
  refine flatMap_filter_of_nil _ _ ?_ _
  intro df hdf
  simp [keywordEligible_eq_false_of_script (f := df.2) hdf]

/-- Signature rules never fire on the tool's own file. -/
lemma ruleFound_removeScript (tree : FSTree) (pat : String) (mode : Nat) :
    ruleFound (removeScript tree) pat mode = ruleFound tree pat mode := by
  rw [ruleFound, ruleFound, filesOfTree_removeScript]
  refine any_filter_of_false _ _ ?_ _
  intro df hdf
  simp [eligible_eq_false_of_script (f := df.2) hdf]

/-- Signature detection ignores the tool's own file for every rule table. -/
lemma detect_custom_patterns_removeScript (tree : FSTree)
    (cpats : List (String × String × Nat)) :
    detect_custom_patterns (removeScript tree) cpats = detect_custom_patterns tree cpats := by
  simp [detect_custom_patterns, ruleFound_removeScript]

/-- C6: deleting the tool's own file from the tree changes no result: it is in
no classification list, not an init.d script, not an HTTPD service, produces
no keyword hit, and never witnesses a signature label, whatever the rule
tables and keywords. -/
theorem self_exclusion_invariance (tree : FSTree) (pats : List (String × List String))
    (kws : List String) (cpats : List (String × String × Nat)) :
    find_files (removeScript tree) pats = find_files tree pats ∧
    find_init_scripts (removeScript tree) = find_init_scripts tree ∧
    find_httpd_services (removeScript tree) = find_httpd_services tree ∧
    detect_user_keywords (removeScript tree) kws = detect_user_keywords tree kws ∧
    detect_custom_patterns (removeScript tree) cpats = detect_custom_patterns tree cpats :=
  ⟨find_files_removeScript tree pats, find_init_scripts_removeScript tree,
   find_httpd_services_removeScript tree, detect_user_keywords_removeScript tree kws,
   detect_custom_patterns_removeScript tree cpats⟩

/-! Characterization of the Goahead version probe (C8). -/

/-- Success of the literal matcher means the literal is a leading segment. -/
lemma dropLit_eq_some_iff {α : Type} [DecidableEq α] :
    ∀ (lit s r : List α), dropLit lit s = some r ↔ s = lit ++ r
  | [], s, r => by simp [dropLit]
  | a :: as, [], r => by
    constructor
    · intro h
      exact Option.noConfusion h
    · intro h
      exact List.noConfusion h
  | a :: as, b :: bs, r => by
    by_cases hab : a = b
    · subst hab
      rw [show dropLit (a :: as) (a :: bs) = dropLit as bs from by simp [dropLit]]
      rw [dropLit_eq_some_iff as bs r]
      simp
    · constructor
      · intro h
        rw [show dropLit (a :: as) (b :: bs) = none from by simp [dropLit, hab]] at h
        exact Option.noConfusion h
      · intro h
        injection h with h1 _
        exact absurd h1.symm hab

/-- The literal matcher strips its own literal. -/
lemma dropLit_self_append {α : Type} [DecidableEq α] (lit r : List α) :
    dropLit lit (lit ++ r) = some r := (dropLit_eq_some_iff lit (lit ++ r) r).mpr rfl

/-- Inversion of a successful greedy chunk parse. -/
lemma parseChunk_eq_some {p : Char → Bool} {s : List Char} {cr : List Char × List Char}
    (h : parseChunk p s = some cr) :
    cr.1 = s.takeWhile p ∧ cr.2 = s.dropWhile p ∧ cr.1 ≠ [] := by
  rw [parseChunk] at h
  by_cases ht : s.takeWhile p = []
  · rw [if_pos ht] at h
    exact Option.noConfusion h
  · rw [if_neg ht] at h
    injection h with h'
    subst h'
    exact ⟨rfl, rfl, ht⟩

/-- Inversion of a successful literal-dot parse. -/
lemma expectDot_eq_some {s r : List Char} (h : expectDot s = some r) : s = '.' :: r := by
  cases s with
  | nil => exact Option.noConfusion h
  | cons c cs =>
    simp only [expectDot] at h
    by_cases hc : c = '.'
    · rw [if_pos hc] at h
      injection h with h'
      rw [hc, h']
    · rw [if_neg hc] at h
      exact Option.noConfusion h

/-- The literal-dot parse succeeds on a leading dot. -/
lemma expectDot_cons_dot (r : List Char) : expectDot ('.' :: r) = some r := by
  simp [expectDot]

/-- Splitting a list at a boundary where the predicate flips. -/
lemma takeWhile_append_all {p : Char → Bool} : ∀ (w rest : List Char),
    (∀ c ∈ w, p c = true) → (∀ c, rest.head? = some c → p c = false) →
    (w ++ rest).takeWhile p = w ∧ (w ++ rest).dropWhile p = rest
  | [], rest, _, hr => by
    cases rest with
    | nil => exact ⟨rfl, rfl⟩
    | cons c cs =>
      have hc := hr c rfl
      constructor
      · simp [List.takeWhile_cons, hc]
      · simp [List.dropWhile_cons, hc]
  | a :: as, rest, hw, hr => by
    have ha : p a = true := hw a (List.mem_cons_self a as)
    have ih := takeWhile_append_all as rest (fun c hc => hw c (List.mem_cons_of_mem a hc)) hr
    constructor
    · simp [List.takeWhile_cons, ha, ih.1]
    · simp [List.dropWhile_cons, ha, ih.2]

/-- The greedy chunk parse recognizes a run followed by a non-run character. -/
lemma parseChunk_append {p : Char → Bool} (w rest : List Char)
    (hw : ∀ c ∈ w, p c = true) (hne : w ≠ [])
    (hr : ∀ c, rest.head? = some c → p c = false) :
    parseChunk p (w ++ rest) = some (w, rest) := by
  obtain ⟨h1, h2⟩ := takeWhile_append_all w rest hw hr
  rw [parseChunk, h1, h2, if_neg hne]

/-- Whitespace characters are never digits. -/
lemma isDigit_eq_false_of_space {c : Char} (h : isSpaceChar c = true) : c.isDigit = false := by
  have hm : c ∈ [' ', '\t', '\n', '\r', '\x0b', '\x0c'] := by
    simpa [isSpaceChar] using h
  simp only [List.mem_cons, List.not_mem_nil, or_false] at hm
  rcases hm with rfl | rfl | rfl | rfl | rfl | rfl <;> decide

/-- Digits are never whitespace. -/
lemma isSpaceChar_eq_false_of_digit {c : Char} (h : c.isDigit = true) : isSpaceChar c = false := by
  cases hs : isSpaceChar c with
  | false => rfl
  | true => rw [isDigit_eq_false_of_space hs] at h; exact Bool.noConfusion h

/-- Nonempty run of decimal digits (one `\d+` group). -/
def DigitRun (d : List Char) : Prop := d ≠ [] ∧ ∀ c ∈ d, c.isDigit = true

/-- Nonempty run of whitespace (one `\s+` gap). -/
def SpaceRun (w : List Char) : Prop := w ≠ [] ∧ ∀ c ∈ w, isSpaceChar c = true

/-- Semantic reading of the version regex anchored at the head of `s`: the
SERVER_ADDR marker, whitespace, a three-component numeric version (group 1),
whitespace, the SERVER_SOFTWARE marker, then anything. -/
def AnchoredVersion (s v : List Char) : Prop :=
  ∃ w1 d1 d2 d3 w2 post,
    s = serverAddrChars ++ (w1 ++ (d1 ++ ('.' :: (d2 ++ ('.' :: (d3 ++
        (w2 ++ (serverSoftwareChars ++ post)))))))) ∧
    v = d1 ++ ('.' :: (d2 ++ ('.' :: d3))) ∧
    SpaceRun w1 ∧ DigitRun d1 ∧ DigitRun d2 ∧ DigitRun d3 ∧ SpaceRun w2

/-- A marker-anchored version match somewhere inside `s`, with value `v`. -/
def MarkerVersion (s v : List Char) : Prop := ∃ pre t, s = pre ++ t ∧ AnchoredVersion t v

/-- Soundness of the anchored matcher: success exhibits the decomposition. -/
lemma goaheadMatchAt_sound {s : List Char} {v : String}
    (h : goaheadMatchAt s = some v) : AnchoredVersion s v.data := by
  rw [goaheadMatchAt] at h
  rcases Option.bind_eq_some.mp h with ⟨r1, hr1, h⟩
  rcases Option.bind_eq_some.mp h with ⟨w1r, hw1, h⟩
  rcases Option.bind_eq_some.mp h with ⟨d1r, hd1, h⟩
  rcases Option.bind_eq_some.mp h with ⟨r4, hr4, h⟩
  rcases Option.bind_eq_some.mp h with ⟨d2r, hd2, h⟩
  rcases Option.bind_eq_some.mp h with ⟨r6, hr6, h⟩
  rcases Option.bind_eq_some.mp h with ⟨d3r, hd3, h⟩
  rcases Option.bind_eq_some.mp h with ⟨w2r, hw2, h⟩
  rcases Option.map_eq_some'.mp h with ⟨post0, hpost, hv⟩
  have hs1 : s = serverAddrChars ++ r1 := (dropLit_eq_some_iff _ _ _).mp hr1
  obtain ⟨hw11, hw12, hw1ne⟩ := parseChunk_eq_some hw1
  obtain ⟨hd11, hd12, hd1ne⟩ := parseChunk_eq_some hd1
  have hr4' : d1r.2 = '.' :: r4 := expectDot_eq_some hr4
  obtain ⟨hd21, hd22, hd2ne⟩ := parseChunk_eq_some hd2
  have hr6' : d2r.2 = '.' :: r6 := expectDot_eq_some hr6
  obtain ⟨hd31, hd32, hd3ne⟩ := parseChunk_eq_some hd3
  obtain ⟨hw21, hw22, hw2ne⟩ := parseChunk_eq_some hw2
  have hpost' : w2r.2 = serverSoftwareChars ++ post0 := (dropLit_eq_some_iff _ _ _).mp hpost
  have e1 : r1 = w1r.1 ++ w1r.2 := by
    rw [hw11, hw12]; exact (List.takeWhile_append_dropWhile _ _).symm
  have e2 : w1r.2 = d1r.1 ++ d1r.2 := by
    rw [hd11, hd12]; exact (List.takeWhile_append_dropWhile _ _).symm
  have e3 : r4 = d2r.1 ++ d2r.2 := by
    rw [hd21, hd22]; exact (List.takeWhile_append_dropWhile _ _).symm
  have e4 : r6 = d3r.1 ++ d3r.2 := by
    rw [hd31, hd32]; exact (List.takeWhile_append_dropWhile _ _).symm
  have e5 : d3r.2 = w2r.1 ++ w2r.2 := by
    rw [hw21, hw22]; exact (List.takeWhile_append_dropWhile _ _).symm
  refine ⟨w1r.1, d1r.1, d2r.1, d3r.1, w2r.1, post0, ?_, ?_, ?_, ?_, ?_, ?_, ?_⟩
  · rw [hs1, e1, e2, hr4', e3, hr6', e4, e5, hpost']
  · rw [← hv]
    simp [List.cons_append, List.append_assoc]
  · exact ⟨hw1ne, fun c hc => List.mem_takeWhile_imp (hw11 ▸ hc)⟩
  · exact ⟨hd1ne, fun c hc => List.mem_takeWhile_imp (hd11 ▸ hc)⟩
  · exact ⟨hd2ne, fun c hc => List.mem_takeWhile_imp (hd21 ▸ hc)⟩
  · exact ⟨hd3ne, fun c hc => List.mem_takeWhile_imp (hd31 ▸ hc)⟩
  · exact ⟨hw2ne, fun c hc => List.mem_takeWhile_imp (hw21 ▸ hc)⟩

/-- Completeness of the anchored matcher: the decomposition forces success. -/
lemma goaheadMatchAt_complete {t v : List Char} (h : AnchoredVersion t v) :
    goaheadMatchAt t = some ⟨v⟩ := by
  obtain ⟨w1, d1, d2, d3, w2, post, hteq, hveq, hw1, hd1, hd2, hd3, hw2⟩ := h
  obtain ⟨c1, d1t, hd1c⟩ := List.exists_cons_of_ne_nil hd1.1
  obtain ⟨c3, d3t, hd3c⟩ := List.exists_cons_of_ne_nil hd3.1
  obtain ⟨cw, w2t, hw2c⟩ := List.exists_cons_of_ne_nil hw2.1
  have hh1 : ∀ c, (d1 ++ ('.' :: (d2 ++ ('.' :: (d3 ++ (w2 ++
      (serverSoftwareChars ++ post))))))).head? = some c → isSpaceChar c = false := by
    intro c hc
    rw [hd1c] at hc
    injection hc with hc'
    rw [← hc']
    exact isSpaceChar_eq_false_of_digit (hd1.2 c1 (hd1c ▸ List.mem_cons_self c1 d1t))
  have hh2 : ∀ c, ('.' :: (d2 ++ ('.' :: (d3 ++ (w2 ++
      (serverSoftwareChars ++ post)))))).head? = some c → c.isDigit = false := by
    intro c hc
    injection hc with hc'
    rw [← hc']
    decide
  have hh3 : ∀ c, ('.' :: (d3 ++ (w2 ++ (serverSoftwareChars ++ post)))).head? = some c →
      c.isDigit = false := by
    intro c hc
    injection hc with hc'
    rw [← hc']
    decide
  have hh4 : ∀ c, (w2 ++ (serverSoftwareChars ++ post)).head? = some c →
      c.isDigit = false := by
    intro c hc
    rw [hw2c] at hc
    injection hc with hc'
    rw [← hc']
    exact isDigit_eq_false_of_space (hw2.2 cw (hw2c ▸ List.mem_cons_self cw w2t))
  have hh5 : ∀ c, (serverSoftwareChars ++ post).head? = some c → isSpaceChar c = false := by
    intro c hc
    injection hc with hc'
    rw [← hc']
    decide
  rw [hteq, hveq, goaheadMatchAt]
  rw [dropLit_self_append, Option.some_bind]
  rw [parseChunk_append w1 _ hw1.2 hw1.1 hh1, Option.some_bind]
  rw [parseChunk_append d1 _ hd1.2 hd1.1 hh2, Option.some_bind]
  rw [expectDot_cons_dot, Option.some_bind]
  rw [parseChunk_append d2 _ hd2.2 hd2.1 hh3, Option.some_bind]
  rw [expectDot_cons_dot, Option.some_bind]
  rw [parseChunk_append d3 _ hd3.2 hd3.1 hh4, Option.some_bind]
  rw [parseChunk_append w2 _ hw2.2 hw2.1 hh5, Option.some_bind]
  rw [dropLit_self_append]
  simp [List.cons_append, List.append_assoc]

/-- A successful anchored match at any position makes the search succeed. -/
lemma goaheadSearch_isSome_append {t : List Char} (pre : List Char)
    (h : (goaheadMatchAt t).isSome = true) : (goaheadSearch (pre ++ t)).isSome = true := by
  induction pre with
  | nil =>
    cases t with
    | nil => exact absurd h (by decide)
    | cons c rest =>
      rw [List.nil_append, goaheadSearch]
      cases hm : goaheadMatchAt (c :: rest) with
      | none => rw [hm] at h; exact absurd h (by decide)
      | some v => simp
  | cons c pre ih =>
    rw [List.cons_append, goaheadSearch]
    cases hm : goaheadMatchAt (c :: (pre ++ t)) with
    | some v => simp
    | none => simpa using ih

/-- Soundness of the search: success exhibits a marker-anchored decomposition. -/
lemma goaheadSearch_sound : ∀ {s : List Char} {v : String},
    goaheadSearch s = some v → MarkerVersion s v.data
  | [], v, h => Option.noConfusion h
  | c :: rest, v, h => by
    rw [goaheadSearch] at h
    cases hm : goaheadMatchAt (c :: rest) with
    | some w =>
      rw [hm] at h
      injection h with h'
      subst h'
      exact ⟨[], c :: rest, rfl, goaheadMatchAt_sound hm⟩
    | none =>
      rw [hm] at h
      obtain ⟨pre, t, heq, ha⟩ := goaheadSearch_sound h
      exact ⟨c :: pre, t, by rw [List.cons_append, heq], ha⟩

/-- C8: the probe returns the absent result when the library file is absent;
on a present strings dump it returns a version exactly when the dump holds a
marker-anchored three-component numeric version, and any returned value is
such an anchored version. -/
theorem extract_goahead_version_spec :
    extract_goahead_version none = none ∧
    (∀ text v, extract_goahead_version (some text) = some v →
      MarkerVersion text.data v.data) ∧
    (∀ text v, MarkerVersion text.data v →
      (extract_goahead_version (some text)).isSome = true) := by
  refine ⟨rfl, ?_, ?_⟩
  · intro text v h
    exact goaheadSearch_sound h
  · rintro text v ⟨pre, t, heq, ha⟩
    have hm := goaheadMatchAt_complete ha
    have hsome : (goaheadMatchAt t).isSome = true := by rw [hm]; rfl
    show (goaheadSearch text.data).isSome = true
    rw [heq]
    exact goaheadSearch_isSome_append pre hsome

/-- Witness for C8: a concrete dump with a marker-anchored version. -/
theorem extract_goahead_version_spec_witness :
    MarkerVersion "xSERVER_ADDR 1.2.3 SERVER_SOFTWAREy".data "1.2.3".data ∧
    (extract_goahead_version (some "xSERVER_ADDR 1.2.3 SERVER_SOFTWAREy")).isSome = true :=
  have hm : MarkerVersion "xSERVER_ADDR 1.2.3 SERVER_SOFTWAREy".data "1.2.3".data :=
    extract_goahead_version_spec.2.1 "xSERVER_ADDR 1.2.3 SERVER_SOFTWAREy" "1.2.3" (by decide)
  ⟨hm, extract_goahead_version_spec.2.2 "xSERVER_ADDR 1.2.3 SERVER_SOFTWAREy" "1.2.3".data hm⟩
